import Mathlib

/-!
# Verification of the mock-trade ledger, signal engine and startup reconciliation

Shallow embedding of `src/mock_trade/virtual_account.py`,
`src/mock_trade/trading_strategy.py` and the reconstruction routine
`TradingMonitor._restore_positions` of `src/mock_trade/monitor.py`,
together with the trade-history read path
`TradeDatabase.get_all_trades` of `src/mock_trade/trade_database.py`.

Python floats are modelled as exact rationals (`ℚ`), share counts as `ℕ`
(signed accumulators in the reconstruction use `ℤ`, as the source computes
a signed running quantity there).  Python `dict`s holding account positions
are modelled as association lists with `dict` semantics: assignment to an
existing key updates the value in place, assignment to a fresh key appends,
`del` removes the entry.  Timestamps and logging are not modelled: no claim
below depends on them.
-/

namespace MockTrade

abbrev Sym := String

/-! ## Association-list operations with Python `dict` semantics -/

/-- `m[k]` lookup: first (and, for maps built by `dictInsert`, only) binding of `k`. -/
def lookupKey {α : Type} : List (Sym × α) → Sym → Option α
  | [], _ => none
  | (k', v) :: rest, k => if k' = k then some v else lookupKey rest k

/-- `m[k] = v`: update in place if `k` is bound, otherwise append (insertion order). -/
def dictInsert {α : Type} (m : List (Sym × α)) (k : Sym) (v : α) : List (Sym × α) :=
  if (lookupKey m k).isSome then
    m.map (fun p => if p.1 = k then (k, v) else p)
  else
    m ++ [(k, v)]

/-- `del m[k]`: remove the binding of `k`, keeping the other entries in order. -/
def dictErase {α : Type} (m : List (Sym × α)) (k : Sym) : List (Sym × α) :=
  m.filter (fun p => p.1 ≠ k)

/-! ## `virtual_account.py`: `Position`, `Trade`, `VirtualAccount` -/

/-- The `Position` dataclass of `virtual_account.py`. -/
structure Position where
  symbol : Sym
  quantity : ℕ
  avg_price : ℚ
  current_price : ℚ
  deriving Repr, DecidableEq

/-- `Position.market_value`. -/
def Position.market_value (p : Position) : ℚ := p.quantity * p.current_price

/-- `Position.cost_basis`. -/
def Position.cost_basis (p : Position) : ℚ := p.quantity * p.avg_price

/-- The `Trade` dataclass of `virtual_account.py` (timestamp omitted). -/
structure Trade where
  trade_id : ℕ
  symbol : Sym
  action : String
  quantity : ℕ
  price : ℚ
  commission : ℚ
  order_type : String
  deriving Repr, DecidableEq

/-- The `VirtualAccount` class state. -/
structure VirtualAccount where
  initial_capital : ℚ
  cash : ℚ
  positions : List (Sym × Position)
  trades : List Trade
  next_trade_id : ℕ
  deriving Repr, DecidableEq

/-- `VirtualAccount.__init__(initial_capital)`. -/
def VirtualAccount.mk0 (initial_capital : ℚ) : VirtualAccount :=
  { initial_capital := initial_capital
    cash := initial_capital
    positions := []
    trades := []
    next_trade_id := 1 }

/-- `VirtualAccount.buy`: returns the Python `bool` result together with the
account state after the call. -/
def VirtualAccount.buy (acc : VirtualAccount) (symbol : Sym) (quantity : ℕ)
    (price : ℚ) (commission : ℚ := 0) (order_type : String := "MARKET") :
    Bool × VirtualAccount :=
  let total_cost : ℚ := quantity * price + commission
  if acc.cash < total_cost then
    (false, acc)
  else
    let cash' := acc.cash - total_cost
    let positions' :=
      match lookupKey acc.positions symbol with
      | some pos =>
          let total_qty := pos.quantity + quantity
          let total_cost_basis := pos.quantity * pos.avg_price + quantity * price
          dictInsert acc.positions symbol
            { pos with quantity := total_qty, avg_price := total_cost_basis / total_qty }
      | none =>
          dictInsert acc.positions symbol
            { symbol := symbol, quantity := quantity, avg_price := price,
              current_price := price }
    let trade : Trade :=
      { trade_id := acc.next_trade_id, symbol := symbol, action := "BUY",
        quantity := quantity, price := price, commission := commission,
        order_type := order_type }
    (true,
      { acc with cash := cash', positions := positions',
                 trades := acc.trades ++ [trade],
                 next_trade_id := acc.next_trade_id + 1 })

/-- `VirtualAccount.sell`: returns the Python `bool` result together with the
account state after the call. -/
def VirtualAccount.sell (acc : VirtualAccount) (symbol : Sym) (quantity : ℕ)
    (price : ℚ) (commission : ℚ := 0) (order_type : String := "MARKET") :
    Bool × VirtualAccount :=
  match lookupKey acc.positions symbol with
  | none => (false, acc)
  | some pos =>
      if pos.quantity < quantity then
        (false, acc)
      else
        let proceeds : ℚ := quantity * price - commission
        let cash' := acc.cash + proceeds
        let newQty := pos.quantity - quantity
        let positions' :=
          if newQty = 0 then dictErase acc.positions symbol
          else dictInsert acc.positions symbol { pos with quantity := newQty }
        let trade : Trade :=
          { trade_id := acc.next_trade_id, symbol := symbol, action := "SELL",
            quantity := quantity, price := price, commission := commission,
            order_type := order_type }
        (true,
          { acc with cash := cash', positions := positions',
                     trades := acc.trades ++ [trade],
                     next_trade_id := acc.next_trade_id + 1 })

/-- `VirtualAccount.update_prices(prices)`: the price map is modelled as a
partial function, matching `if symbol in prices: pos.current_price = prices[symbol]`. -/
def VirtualAccount.update_prices (acc : VirtualAccount) (prices : Sym → Option ℚ) :
    VirtualAccount :=
  { acc with
    positions := acc.positions.map (fun sp =>
      match prices sp.1 with
      | some q => (sp.1, { sp.2 with current_price := q })
      | none => sp) }

/-! ## `trading_strategy.py`: `TradingCondition`, `TradingStrategy` -/

/-- The `TradingCondition` dataclass of `trading_strategy.py`. -/
structure TradingCondition where
  symbol : Sym
  entry_price : Option ℚ
  stop_loss : Option ℚ
  take_profit : Option ℚ
  quantity : ℕ
  entry_condition : String
  exit_condition : String
  deriving Repr, DecidableEq

/-- The strategy engine's `conditions` dict, modelled as a partial function
(the entry/exit checks only ever look a symbol up). -/
structure TradingStrategy where
  conditions : Sym → Option TradingCondition

/-- `TradingStrategy.PRICE_TOLERANCE` (1%). -/
def PRICE_TOLERANCE : ℚ := 1 / 100

/-- `TradingStrategy.check_entry_signal`: returns `some "BUY"` or `none`. -/
def TradingStrategy.check_entry_signal (strat : TradingStrategy) (symbol : Sym)
    (current_price : ℚ) : Option String :=
  match strat.conditions symbol with
  | none => none
  | some condition =>
      if 0 < condition.quantity then none
      else
        match condition.entry_price with
        | none => none
        | some ep =>
            let entry_lower := ep * (1 - PRICE_TOLERANCE)
            let entry_upper := ep * (1 + PRICE_TOLERANCE)
            if entry_lower ≤ current_price ∧ current_price ≤ entry_upper then
              some "BUY"
            else none

/-- Which branch of `check_exit_signal` produced the `'SELL'` (the source
distinguishes them only through its log lines: `STOP LOSS triggered` versus
`TAKE PROFIT triggered`). -/
inductive ExitReason where
  | stop_loss
  | take_profit
  deriving Repr, DecidableEq

/-- The take-profit half of `check_exit_signal`, reached only when the
stop-loss check did not fire.  `if condition.take_profit:` is Python
truthiness: it requires the field to be non-`None` AND non-zero. -/
def takeProfitCheck (condition : TradingCondition) (current_price : ℚ) :
    Option ExitReason :=
  match condition.take_profit with
  | none => none
  | some tp =>
      if tp ≠ 0 ∧ tp * (1 - PRICE_TOLERANCE) ≤ current_price ∧
          current_price ≤ tp * (1 + PRICE_TOLERANCE) then
        some ExitReason.take_profit
      else none

/-- `TradingStrategy.check_exit_signal`, refined to report which branch fired.
`if condition.stop_loss:` is Python truthiness (non-`None` and non-zero). -/
def TradingStrategy.check_exit_reason (strat : TradingStrategy) (symbol : Sym)
    (current_price : ℚ) : Option ExitReason :=
  match strat.conditions symbol with
  | none => none
  | some condition =>
      if condition.quantity = 0 then none
      else
        match condition.stop_loss with
        | none => takeProfitCheck condition current_price
        | some sl =>
            if sl ≠ 0 ∧ sl * (1 - PRICE_TOLERANCE) ≤ current_price ∧
                current_price ≤ sl * (1 + PRICE_TOLERANCE) then
              some ExitReason.stop_loss
            else takeProfitCheck condition current_price

/-- `TradingStrategy.check_exit_signal` as written in the source: both exit
branches return the same string `'SELL'`. -/
def TradingStrategy.check_exit_signal (strat : TradingStrategy) (symbol : Sym)
    (current_price : ℚ) : Option String :=
  (strat.check_exit_reason symbol current_price).map (fun _ => "SELL")

/-! ## `monitor.py` / `trade_database.py`: startup reconciliation -/

/-- A row of the `trades` table as consumed by `_restore_positions`
(timestamps omitted; the table order stands in for chronological order). -/
structure DbTrade where
  symbol : Sym
  action : String
  quantity : ℕ
  price : ℚ
  commission : ℚ
  deriving Repr, DecidableEq

/-- `TradeDatabase.get_all_trades(limit)`: `SELECT * FROM trades ORDER BY
timestamp DESC LIMIT ?`.  The database is modelled as the list of rows in
insertion (chronological) order, so the query reverses and truncates. -/
def get_all_trades (db : List DbTrade) (limit : ℕ) : List DbTrade :=
  db.reverse.take limit

/-- The per-symbol accumulator of `_restore_positions`:
`positions_data[symbol] = {'qty': ..., 'total_cost': ...}` (`qty` is a signed
running sum in the source). -/
structure RestoreEntry where
  qty : ℤ
  total_cost : ℚ
  deriving Repr, DecidableEq

/-- The `positions_data` update of one iteration of the
`for trade in reversed(trades)` loop of `_restore_positions`. -/
def restoreData (data : List (Sym × RestoreEntry)) (t : DbTrade) :
    List (Sym × RestoreEntry) :=
  let e := (lookupKey data t.symbol).getD { qty := 0, total_cost := 0 }
  if t.action = "BUY" then
    dictInsert data t.symbol
      { qty := e.qty + t.quantity, total_cost := e.total_cost + t.quantity * t.price }
  else if t.action = "SELL" then
    let newQty := e.qty - t.quantity
    let newCost :=
      if 0 < newQty then
        let avg_price := e.total_cost / (newQty + t.quantity)
        e.total_cost - t.quantity * avg_price
      else 0
    dictInsert data t.symbol { qty := newQty, total_cost := newCost }
  else
    data

/-- One iteration of the `for trade in reversed(trades)` loop of
`_restore_positions`: updates `(positions_data, total_commission)` (the
commission is accumulated before the action dispatch, hence unconditionally). -/
def restoreStep (st : List (Sym × RestoreEntry) × ℚ) (t : DbTrade) :
    List (Sym × RestoreEntry) × ℚ :=
  (restoreData st.1 t, st.2 + t.commission)

/-- The whole accumulation loop of `_restore_positions`, fed the trades in
oldest-first order. -/
def restoreFold (trades : List DbTrade) : List (Sym × RestoreEntry) × ℚ :=
  trades.foldl restoreStep ([], 0)

/-- The `{k: v for k, v in positions_data.items() if v['qty'] > 0}` filter. -/
def restoreSurvivors (data : List (Sym × RestoreEntry)) : List (Sym × RestoreEntry) :=
  data.filter (fun p => 0 < p.2.qty)

/-- The `Position` installed for one surviving symbol: average price is
`total_cost / qty`, the current price is seeded from a live quote with the
average cost as fallback. -/
def restorePosition (quotes : Sym → Option ℚ) (symbol : Sym) (e : RestoreEntry) :
    Position :=
  let avg_price := e.total_cost / (e.qty : ℚ)
  { symbol := symbol
    quantity := e.qty.toNat
    avg_price := avg_price
    current_price := (quotes symbol).getD avg_price }

/-- `TradingMonitor._restore_positions`, acting on the account state.
`INITIAL_CAPITAL` is the same constant the account was constructed with, so
it is passed explicitly; `quotes` models `MarketDataProvider.get_current_price`.
The strategy-side `condition.quantity` mirror update and all logging are not
modelled.  Follows the source exactly: `get_all_trades(limit=1000)`, early
return when no trades, oldest-first fold, drop non-positive quantities,
`cash = INITIAL_CAPITAL - (Σ surviving total_cost + total_commission)`,
and installation of the surviving positions into `account.positions`. -/
def restorePositions (quotes : Sym → Option ℚ) (INITIAL_CAPITAL : ℚ)
    (db : List DbTrade) (acc : VirtualAccount) : VirtualAccount :=
  let trades := get_all_trades db 1000
  if trades = [] then acc
  else
    let folded := restoreFold trades.reverse
    let positions_data := restoreSurvivors folded.1
    let total_commission := folded.2
    let total_invested :=
      (positions_data.map (fun p => p.2.total_cost)).sum + total_commission
    let cash' := INITIAL_CAPITAL - total_invested
    let positions' := positions_data.foldl
      (fun ps p => dictInsert ps p.1 (restorePosition quotes p.1 p.2))
      acc.positions
    { acc with cash := cash', positions := positions' }

/-! ## Lemmas about the dict operations -/

@[simp]
theorem lookupKey_nil {α : Type} (k : Sym) : lookupKey ([] : List (Sym × α)) k = none := rfl

@[simp]
theorem lookupKey_cons {α : Type} (k' k : Sym) (v : α) (rest : List (Sym × α)) :
    lookupKey ((k', v) :: rest) k = if k' = k then some v else lookupKey rest k := rfl

theorem lookupKey_eq_none_iff {α : Type} (m : List (Sym × α)) (k : Sym) :
    lookupKey m k = none ↔ k ∉ m.map Prod.fst := by
  induction m with
  | nil => simp
  | cons p rest ih =>
      obtain ⟨k', v⟩ := p
      by_cases h : k' = k
      · subst h; simp
      · rw [List.map_cons, List.mem_cons, lookupKey_cons, if_neg h, ih]
        have h' : ¬k = k' := fun hh => h hh.symm
        simp [not_or, h']

theorem lookupKey_isSome_of_mem {α : Type} {m : List (Sym × α)} {k : Sym} {v : α}
    (h : (k, v) ∈ m) : (lookupKey m k).isSome := by
  induction m with
  | nil => simp at h
  | cons p rest ih =>
      rcases List.mem_cons.mp h with h1 | h1
      · subst h1; simp
      · obtain ⟨k', v'⟩ := p
        by_cases hk : k' = k <;> simp [hk, ih h1]

theorem lookupKey_dictInsert_self {α : Type} (m : List (Sym × α)) (k : Sym) (v : α) :
    lookupKey (dictInsert m k v) k = some v := by
  unfold dictInsert
  by_cases h : (lookupKey m k).isSome
  · rw [if_pos h]
    induction m with
    | nil => simp at h
    | cons p rest ih =>
        obtain ⟨k', v'⟩ := p
        by_cases hk : k' = k
        · simp [hk]
        · simp only [List.map_cons] at *
          simp only [lookupKey_cons, hk, if_false] at h ⊢
          simpa [hk] using ih h
  · rw [if_neg h]
    rw [Option.not_isSome_iff_eq_none] at h
    induction m with
    | nil => simp
    | cons p rest ih =>
        obtain ⟨k', v'⟩ := p
        by_cases hk : k' = k
        · simp [hk] at h
        · simp only [lookupKey_cons, hk, if_false] at h
          simpa [hk] using ih h

theorem lookupKey_dictErase_self {α : Type} (m : List (Sym × α)) (k : Sym) :
    lookupKey (dictErase m k) k = none := by
  unfold dictErase
  induction m with
  | nil => simp
  | cons p rest ih =>
      obtain ⟨k', v'⟩ := p
      by_cases hk : k' = k
      · simpa [hk] using ih
      · simpa [hk, List.filter_cons] using ih

/-- A keyed map over an association list commutes with lookup. -/
theorem lookupKey_map_keyed {α β : Type} (g : Sym → α → β) (m : List (Sym × α)) (k : Sym) :
    lookupKey (m.map (fun p => (p.1, g p.1 p.2))) k = (lookupKey m k).map (g k) := by
  induction m with
  | nil => simp
  | cons p rest ih =>
      obtain ⟨k', v'⟩ := p
      by_cases hk : k' = k
      · subst hk; simp
      · simpa [hk] using ih

theorem dictInsert_keys {α : Type} (m : List (Sym × α)) (k : Sym) (v : α) :
    (dictInsert m k v).map Prod.fst =
      if (lookupKey m k).isSome then m.map Prod.fst else m.map Prod.fst ++ [k] := by
  unfold dictInsert
  by_cases h : (lookupKey m k).isSome
  · rw [if_pos h, if_pos h, List.map_map]
    refine List.map_congr_left (fun p _ => ?_)
    by_cases hp : p.1 = k <;> simp [hp]
  · rw [if_neg h, if_neg h]
    simp

theorem dictInsert_keys_nodup {α : Type} {m : List (Sym × α)} (k : Sym) (v : α)
    (h : (m.map Prod.fst).Nodup) : ((dictInsert m k v).map Prod.fst).Nodup := by
  rw [dictInsert_keys]
  by_cases hs : (lookupKey m k).isSome
  · rwa [if_pos hs]
  · rw [if_neg hs]
    rw [Option.not_isSome_iff_eq_none, lookupKey_eq_none_iff] at hs
    simp [List.nodup_append, h, hs]

/-- Writing a binding that is already present (with the same value, and no
other binding of that key) changes nothing. -/
theorem dictInsert_eq_self {α : Type} {m : List (Sym × α)} {k : Sym} {v : α}
    (hmem : (k, v) ∈ m) (huniq : ∀ p ∈ m, p.1 = k → p = (k, v)) :
    dictInsert m k v = m := by
  unfold dictInsert
  rw [if_pos (lookupKey_isSome_of_mem hmem)]
  have hmap : m.map (fun p => if p.1 = k then (k, v) else p) = m.map id := by
    refine List.map_congr_left (fun p hp => ?_)
    by_cases hk : p.1 = k
    · simp [hk, (huniq p hp hk).symm]
    · simp [hk]
  rw [hmap, List.map_id]

/-! ## Buy sequences -/

/-- The arguments of one `buy` call. -/
structure BuyOrder where
  symbol : Sym
  quantity : ℕ
  price : ℚ
  commission : ℚ
  order_type : String

/-- Run a sequence of `buy` calls, keeping the state of each call whether it
succeeded or failed. -/
def applyBuys (acc : VirtualAccount) (orders : List BuyOrder) : VirtualAccount :=
  orders.foldl
    (fun a o => (a.buy o.symbol o.quantity o.price o.commission o.order_type).2) acc

theorem buy_fail_of_insufficient (acc : VirtualAccount) (s : Sym) (q : ℕ) (p c : ℚ)
    (ot : String) (h : acc.cash < q * p + c) :
    acc.buy s q p c ot = (false, acc) := by
  unfold VirtualAccount.buy
  rw [if_pos h]

theorem sell_fail_of_no_position (acc : VirtualAccount) (s : Sym) (q : ℕ) (p c : ℚ)
    (ot : String) (h : lookupKey acc.positions s = none) :
    acc.sell s q p c ot = (false, acc) := by
  unfold VirtualAccount.sell
  rw [h]

theorem sell_fail_of_insufficient_shares (acc : VirtualAccount) (s : Sym)
    (pos : Position) (q : ℕ) (p c : ℚ) (ot : String)
    (h : lookupKey acc.positions s = some pos) (hq : pos.quantity < q) :
    acc.sell s q p c ot = (false, acc) := by
  unfold VirtualAccount.sell
  rw [h]
  simp only [if_pos hq]

theorem buy_cash_nonneg (acc : VirtualAccount) (s : Sym) (q : ℕ) (p c : ℚ)
    (ot : String) (h : 0 ≤ acc.cash) : 0 ≤ ((acc.buy s q p c ot).2).cash := by
  unfold VirtualAccount.buy
  by_cases hc : acc.cash < q * p + c
  · rw [if_pos hc]; exact h
  · rw [if_neg hc]
    push_neg at hc
    simpa using hc

/-- Claim C1: a `buy` whose total cost `quantity*price + commission` exceeds
current cash returns failure and leaves the whole account state unchanged; a
`sell` with no position for the symbol, or with a quantity greater than the
held quantity, returns failure and leaves the account unchanged; and along any
sequence of `buy` calls, cash never goes negative. -/
theorem ledger_affordability :
    (∀ (acc : VirtualAccount) (s : Sym) (q : ℕ) (p c : ℚ) (ot : String),
        acc.cash < q * p + c → acc.buy s q p c ot = (false, acc)) ∧
    (∀ (acc : VirtualAccount) (s : Sym) (q : ℕ) (p c : ℚ) (ot : String),
        lookupKey acc.positions s = none → acc.sell s q p c ot = (false, acc)) ∧
    (∀ (acc : VirtualAccount) (s : Sym) (pos : Position) (q : ℕ) (p c : ℚ)
        (ot : String),
        lookupKey acc.positions s = some pos → pos.quantity < q →
        acc.sell s q p c ot = (false, acc)) ∧
    (∀ (acc : VirtualAccount) (orders : List BuyOrder),
        0 ≤ acc.cash → 0 ≤ (applyBuys acc orders).cash) := by
  refine ⟨buy_fail_of_insufficient, sell_fail_of_no_position,
    sell_fail_of_insufficient_shares, fun acc orders => ?_⟩
  induction orders generalizing acc with
  | nil => exact fun h => h
  | cons o rest ih =>
      intro h
      exact ih _ (buy_cash_nonneg acc o.symbol o.quantity o.price o.commission
        o.order_type h)

/-- Concrete instance of `ledger_affordability`: with $5 of cash a $10 buy
fails and changes nothing; selling an unheld symbol fails; selling 2 shares
when holding 1 fails; a sequence of two buys from $5 leaves cash ≥ 0. -/
theorem ledger_affordability_witness :
    (VirtualAccount.mk0 5).buy "AAPL" 1 10 0 "MARKET" = (false, VirtualAccount.mk0 5) ∧
    (VirtualAccount.mk0 5).sell "AAPL" 1 10 0 "MARKET" = (false, VirtualAccount.mk0 5) ∧
    (((VirtualAccount.mk0 100).buy "AAPL" 1 10 0 "MARKET").2).sell "AAPL" 2 10 0 "MARKET"
      = (false, ((VirtualAccount.mk0 100).buy "AAPL" 1 10 0 "MARKET").2) ∧
    0 ≤ (applyBuys (VirtualAccount.mk0 5)
          [⟨"AAPL", 1, 2, 0, "MARKET"⟩, ⟨"MSFT", 1, 2, 0, "MARKET"⟩]).cash := by
  refine ⟨?_, ?_, ?_, ?_⟩
  · exact ledger_affordability.1 _ "AAPL" 1 10 0 "MARKET" (by norm_num [VirtualAccount.mk0])
  · exact ledger_affordability.2.1 _ "AAPL" 1 10 0 "MARKET" (by simp [VirtualAccount.mk0])
  · exact ledger_affordability.2.2.1 _ "AAPL" ⟨"AAPL", 1, 10, 10⟩ 2 10 0 "MARKET"
      (by norm_num [VirtualAccount.buy, VirtualAccount.mk0, dictInsert, lookupKey])
      (by norm_num)
  · exact ledger_affordability.2.2.2 _ _ (by norm_num [VirtualAccount.mk0])

theorem sell_cash_nonneg (acc : VirtualAccount) (s : Sym) (q : ℕ) (p c : ℚ)
    (ot : String) (h : 0 ≤ acc.cash) (hc : c ≤ q * p) :
    0 ≤ ((acc.sell s q p c ot).2).cash := by
  unfold VirtualAccount.sell
  cases hpos : lookupKey acc.positions s with
  | none => exact h
  | some pos =>
      by_cases hq : pos.quantity < q
      · simp only [if_pos hq]; exact h
      · simp only [if_neg hq]
        show 0 ≤ acc.cash + ((q : ℚ) * p - c)
        linarith

/-- Claim C2 fails on the code: `sell` never checks that the commission is
covered by the proceeds.  Starting from `VirtualAccount(10)`, buying one share
at $10 (cash becomes 0) and then selling it at $10 with a commission of $1000
is accepted (`sell` returns `True`) and leaves `cash = -990 < 0`, although the
commission is non-negative and the account's cash was non-negative before the
call. -/
theorem cash_nonneg_counterexample :
    0 ≤ ((((VirtualAccount.mk0 10).buy "AAPL" 1 10 0 "MARKET").2)).cash ∧
    (0 : ℚ) ≤ 1000 ∧
    (((((VirtualAccount.mk0 10).buy "AAPL" 1 10 0 "MARKET").2)).sell
        "AAPL" 1 10 1000 "MARKET").1 = true ∧
    (((((VirtualAccount.mk0 10).buy "AAPL" 1 10 0 "MARKET").2)).sell
        "AAPL" 1 10 1000 "MARKET").2.cash < 0 := by
  norm_num [VirtualAccount.mk0, VirtualAccount.buy, VirtualAccount.sell,
    lookupKey, dictInsert, dictErase]

/-- Claim C2, amended: `cash ≥ 0` holds at construction for a non-negative
initial capital and is preserved by every `buy`; it is preserved by a `sell`
only under the extra assumption `commission ≤ quantity * price` (proceeds not
negative) — a `sell` whose commission exceeds `quantity * price` is still
accepted and can drive cash negative. -/
theorem cash_nonneg_amended :
    (∀ init : ℚ, 0 ≤ init → 0 ≤ (VirtualAccount.mk0 init).cash) ∧
    (∀ (acc : VirtualAccount) (s : Sym) (q : ℕ) (p c : ℚ) (ot : String),
        0 ≤ acc.cash → 0 ≤ ((acc.buy s q p c ot).2).cash) ∧
    (∀ (acc : VirtualAccount) (s : Sym) (q : ℕ) (p c : ℚ) (ot : String),
        0 ≤ acc.cash → c ≤ q * p → 0 ≤ ((acc.sell s q p c ot).2).cash) :=
  ⟨fun _ h => h, buy_cash_nonneg, sell_cash_nonneg⟩

/-- Concrete instance of `cash_nonneg_amended`: construction with $100, one
buy, and one commission-covered sell all keep cash non-negative. -/
theorem cash_nonneg_amended_witness :
    0 ≤ (VirtualAccount.mk0 100).cash ∧
    0 ≤ (((VirtualAccount.mk0 100).buy "AAPL" 2 30 1 "MARKET").2).cash ∧
    0 ≤ (((VirtualAccount.mk0 100).sell "AAPL" 2 30 1 "MARKET").2).cash :=
  ⟨cash_nonneg_amended.1 100 (by norm_num),
   cash_nonneg_amended.2.1 _ "AAPL" 2 30 1 "MARKET" (by norm_num [VirtualAccount.mk0]),
   cash_nonneg_amended.2.2 _ "AAPL" 2 30 1 "MARKET" (by norm_num [VirtualAccount.mk0])
     (by norm_num)⟩

/-! ## Signal-engine theorems -/

/-- A strategy holding exactly one condition for symbol `"A"` with
`entry_price = 100` and no position, for the entry-banding scenario. -/
def entryStrat : TradingStrategy :=
  ⟨fun s =>
    if s = "A" then
      some { symbol := "A", entry_price := some 100, stop_loss := none,
             take_profit := none, quantity := 0, entry_condition := "price",
             exit_condition := "fixed" }
    else none⟩

/-- Claim C5: `check_entry_signal` returns BUY iff the symbol has a condition
with held quantity 0, a set `entry_price`, and a price in the closed band
`[entry_price*(1-1/100), entry_price*(1+1/100)]`; with `entry_price = 100`,
prices 99.00 and 101.00 trigger BUY while 98.99 and 101.01 do not; a condition
with positive quantity never yields an entry signal. -/
theorem check_entry_spec :
    (∀ (strat : TradingStrategy) (s : Sym) (price : ℚ),
        strat.check_entry_signal s price = some "BUY" ↔
          ∃ c ep, strat.conditions s = some c ∧ c.quantity = 0 ∧
            c.entry_price = some ep ∧
            ep * (1 - 1/100) ≤ price ∧ price ≤ ep * (1 + 1/100)) ∧
    entryStrat.check_entry_signal "A" 99 = some "BUY" ∧
    entryStrat.check_entry_signal "A" 101 = some "BUY" ∧
    entryStrat.check_entry_signal "A" (9899/100) = none ∧
    entryStrat.check_entry_signal "A" (10101/100) = none ∧
    (∀ (strat : TradingStrategy) (s : Sym) (price : ℚ) (c : TradingCondition),
        strat.conditions s = some c → 0 < c.quantity →
        strat.check_entry_signal s price = none) := by
  refine ⟨fun strat s price => ?_, ?_, ?_, ?_, ?_, fun strat s price c hc hq => ?_⟩
  · unfold TradingStrategy.check_entry_signal
    cases hc : strat.conditions s with
    | none => simp
    | some c =>
        by_cases hq : 0 < c.quantity
        · have : ¬c.quantity = 0 := by omega
          simp [hq, this]
        · have hq0 : c.quantity = 0 := by omega
          simp only [if_neg hq]
          cases hep : c.entry_price with
          | none => simp [hep]
          | some ep =>
              change (if ep * (1 - PRICE_TOLERANCE) ≤ price ∧
                  price ≤ ep * (1 + PRICE_TOLERANCE) then some "BUY" else none)
                  = some "BUY" ↔ _
              by_cases hband : ep * (1 - PRICE_TOLERANCE) ≤ price ∧
                  price ≤ ep * (1 + PRICE_TOLERANCE)
              · rw [if_pos hband]
                refine iff_of_true rfl ⟨c, ep, rfl, hq0, hep, ?_, ?_⟩
                · simpa [PRICE_TOLERANCE] using hband.1
                · simpa [PRICE_TOLERANCE] using hband.2
              · rw [if_neg hband]
                refine iff_of_false (by simp) ?_
                rintro ⟨c', ep', hc', _, hep', hlo, hhi⟩
                obtain rfl : c = c' := by injection hc'
                obtain rfl : ep = ep' := by rw [hep] at hep'; injection hep'
                exact hband ⟨by simpa [PRICE_TOLERANCE] using hlo,
                  by simpa [PRICE_TOLERANCE] using hhi⟩
  · norm_num [entryStrat, TradingStrategy.check_entry_signal, PRICE_TOLERANCE]
  · norm_num [entryStrat, TradingStrategy.check_entry_signal, PRICE_TOLERANCE]
  · norm_num [entryStrat, TradingStrategy.check_entry_signal, PRICE_TOLERANCE]
  · norm_num [entryStrat, TradingStrategy.check_entry_signal, PRICE_TOLERANCE]
  · unfold TradingStrategy.check_entry_signal
    rw [hc]
    simp [hq]

/-- Concrete instance of `check_entry_spec`: price 100 triggers BUY on
`entryStrat` (via the iff), and a held condition produces no entry signal. -/
theorem check_entry_spec_witness :
    entryStrat.check_entry_signal "A" 100 = some "BUY" ∧
    (TradingStrategy.mk (fun _ =>
        some { symbol := "A", entry_price := some 100, stop_loss := none,
               take_profit := none, quantity := 5, entry_condition := "price",
               exit_condition := "fixed" })).check_entry_signal "A" 100 = none := by
  constructor
  · exact (check_entry_spec.1 entryStrat "A" 100).mpr
      ⟨{ symbol := "A", entry_price := some 100, stop_loss := none,
         take_profit := none, quantity := 0, entry_condition := "price",
         exit_condition := "fixed" }, 100,
       by norm_num [entryStrat], rfl, rfl, by norm_num, by norm_num⟩
  · exact check_entry_spec.2.2.2.2.2 _ "A" 100 _ rfl (by norm_num)

/-- A strategy holding one condition for `"A"` with `stop_loss = 100`,
`take_profit = 101` (overlapping bands) and one held share, for the exit
tie-break scenario. -/
def exitStrat : TradingStrategy :=
  ⟨fun s =>
    if s = "A" then
      some { symbol := "A", entry_price := some 100, stop_loss := some 100,
             take_profit := some 101, quantity := 1, entry_condition := "price",
             exit_condition := "fixed" }
    else none⟩

/-- Claim C6: `check_exit_signal` returns no signal when the held quantity is
0; when a price lies in both the stop-loss band and the take-profit band the
resulting SELL is never attributed to take-profit; concretely, with
`stop_loss = 100`, `take_profit = 101` and price 100.5 the signal is
SELL(stop-loss). -/
theorem check_exit_spec :
    (∀ (strat : TradingStrategy) (s : Sym) (price : ℚ) (c : TradingCondition),
        strat.conditions s = some c → c.quantity = 0 →
        strat.check_exit_signal s price = none) ∧
    (∀ (strat : TradingStrategy) (s : Sym) (price : ℚ) (c : TradingCondition)
        (sl tp : ℚ),
        strat.conditions s = some c →
        c.stop_loss = some sl → c.take_profit = some tp →
        sl * (1 - 1/100) ≤ price → price ≤ sl * (1 + 1/100) →
        tp * (1 - 1/100) ≤ price → price ≤ tp * (1 + 1/100) →
        strat.check_exit_reason s price ≠ some ExitReason.take_profit) ∧
    exitStrat.check_exit_reason "A" (201/2) = some ExitReason.stop_loss ∧
    exitStrat.check_exit_signal "A" (201/2) = some "SELL" := by
  refine ⟨fun strat s price c hc hq0 => ?_,
    fun strat s price c sl tp hc hsl htp hslo hshi htlo hthi => ?_, ?_, ?_⟩
  · unfold TradingStrategy.check_exit_signal TradingStrategy.check_exit_reason
    rw [hc]
    simp [hq0]
  · unfold TradingStrategy.check_exit_reason
    rw [hc]
    by_cases hq0 : c.quantity = 0
    · simp [hq0]
    · simp only [if_neg hq0]
      rw [hsl]
      change (if sl ≠ 0 ∧ sl * (1 - PRICE_TOLERANCE) ≤ price ∧
          price ≤ sl * (1 + PRICE_TOLERANCE) then some ExitReason.stop_loss
          else takeProfitCheck c price) ≠ some ExitReason.take_profit
      by_cases hfire : sl ≠ 0 ∧ sl * (1 - PRICE_TOLERANCE) ≤ price ∧
          price ≤ sl * (1 + PRICE_TOLERANCE)
      · rw [if_pos hfire]
        simp
      · rw [if_neg hfire]
        have hsl0 : sl = 0 := by
          by_contra h0
          exact hfire ⟨h0, by simpa [PRICE_TOLERANCE] using hslo,
            by simpa [PRICE_TOLERANCE] using hshi⟩
        have hp0 : price = 0 := by
          rw [hsl0] at hslo hshi
          linarith
        have htp0 : tp = 0 := by
          rw [hp0] at htlo hthi
          linarith
        unfold takeProfitCheck
        rw [htp]
        change (if tp ≠ 0 ∧ tp * (1 - PRICE_TOLERANCE) ≤ price ∧
            price ≤ tp * (1 + PRICE_TOLERANCE) then some ExitReason.take_profit
            else none) ≠ some ExitReason.take_profit
        rw [if_neg (by simp [htp0])]
        simp
  · norm_num [exitStrat, TradingStrategy.check_exit_reason, takeProfitCheck,
      PRICE_TOLERANCE]
  · norm_num [exitStrat, TradingStrategy.check_exit_signal,
      TradingStrategy.check_exit_reason, takeProfitCheck, PRICE_TOLERANCE]

/-- Concrete instance of `check_exit_spec`: a flat condition yields no exit
signal, and a price in both overlapping bands is not attributed to
take-profit. -/
theorem check_exit_spec_witness :
    entryStrat.check_exit_signal "A" 100 = none ∧
    exitStrat.check_exit_reason "A" 100 ≠ some ExitReason.take_profit := by
  constructor
  · exact check_exit_spec.1 entryStrat "A" 100
      { symbol := "A", entry_price := some 100, stop_loss := none,
        take_profit := none, quantity := 0, entry_condition := "price",
        exit_condition := "fixed" }
      (by norm_num [entryStrat]) rfl
  · exact check_exit_spec.2.1 exitStrat "A" 100
      { symbol := "A", entry_price := some 100, stop_loss := some 100,
        take_profit := some 101, quantity := 1, entry_condition := "price",
        exit_condition := "fixed" } 100 101
      (by norm_num [exitStrat]) rfl rfl (by norm_num) (by norm_num)
      (by norm_num) (by norm_num)

/-! ## Position bookkeeping theorems -/

/-- Claim C7: a successful `sell` that exactly exhausts the position removes
the `Position` entry from the mapping (it is not kept with quantity 0), and a
partial `sell` keeps the position with the reduced quantity and credits
`quantity*price - commission` to cash. -/
theorem sell_position_closing :
    ∀ (acc : VirtualAccount) (s : Sym) (pos : Position) (q : ℕ) (p c : ℚ)
      (ot : String), lookupKey acc.positions s = some pos →
      ((q = pos.quantity →
          (acc.sell s q p c ot).1 = true ∧
          lookupKey ((acc.sell s q p c ot).2).positions s = none) ∧
       (q < pos.quantity →
          (acc.sell s q p c ot).1 = true ∧
          lookupKey ((acc.sell s q p c ot).2).positions s =
            some { pos with quantity := pos.quantity - q } ∧
          ((acc.sell s q p c ot).2).cash = acc.cash + ((q : ℚ) * p - c))) := by
  intro acc s pos q p c ot hpos
  constructor
  · intro hq
    unfold VirtualAccount.sell
    simp only [hpos]
    rw [if_neg (by omega : ¬pos.quantity < q)]
    refine ⟨rfl, ?_⟩
    have h0 : pos.quantity - q = 0 := by omega
    show lookupKey (if pos.quantity - q = 0 then dictErase acc.positions s
      else dictInsert acc.positions s { pos with quantity := pos.quantity - q }) s
      = none
    rw [if_pos h0]
    exact lookupKey_dictErase_self acc.positions s
  · intro hq
    unfold VirtualAccount.sell
    simp only [hpos]
    rw [if_neg (by omega : ¬pos.quantity < q)]
    refine ⟨rfl, ?_, rfl⟩
    have h0 : ¬pos.quantity - q = 0 := by omega
    show lookupKey (if pos.quantity - q = 0 then dictErase acc.positions s
      else dictInsert acc.positions s { pos with quantity := pos.quantity - q }) s
      = some { pos with quantity := pos.quantity - q }
    rw [if_neg h0]
    exact lookupKey_dictInsert_self acc.positions s _

/-- Concrete instance of `sell_position_closing`: holding 2 shares, selling 2
leaves no entry for the symbol; selling 1 leaves 1 share and credits the
proceeds. -/
theorem sell_position_closing_witness :
    (lookupKey (((((VirtualAccount.mk0 100).buy "AAPL" 2 10 0 "MARKET").2).sell
        "AAPL" 2 11 1 "MARKET").2).positions "AAPL" = none) ∧
    (lookupKey (((((VirtualAccount.mk0 100).buy "AAPL" 2 10 0 "MARKET").2).sell
        "AAPL" 1 11 1 "MARKET").2).positions "AAPL"
      = some { symbol := "AAPL", quantity := 1, avg_price := 10, current_price := 10 }) ∧
    ((((((VirtualAccount.mk0 100).buy "AAPL" 2 10 0 "MARKET").2).sell
        "AAPL" 1 11 1 "MARKET").2).cash
      = (((VirtualAccount.mk0 100).buy "AAPL" 2 10 0 "MARKET").2).cash
          + ((1 : ℚ) * 11 - 1)) := by
  have hpos : lookupKey ((((VirtualAccount.mk0 100).buy "AAPL" 2 10 0
      "MARKET").2)).positions "AAPL"
      = some { symbol := "AAPL", quantity := 2, avg_price := 10, current_price := 10 } := by
    norm_num [VirtualAccount.mk0, VirtualAccount.buy, dictInsert, lookupKey]
  have h2 := (sell_position_closing _ "AAPL" _ 2 11 1 "MARKET" hpos).1 rfl
  have h1 := (sell_position_closing _ "AAPL" _ 1 11 1 "MARKET" hpos).2 (by norm_num)
  exact ⟨h2.2, h1.2.1, h1.2.2⟩

/-- A successful `buy` into an existing position merges by volume-weighted
average price (shared between the merge and current-price theorems). -/
theorem buy_merge_position (acc : VirtualAccount) (s : Sym) (pos : Position)
    (q : ℕ) (p c : ℚ) (ot : String) (hpos : lookupKey acc.positions s = some pos)
    (hcash : ¬acc.cash < q * p + c) :
    (acc.buy s q p c ot).1 = true ∧
    lookupKey ((acc.buy s q p c ot).2).positions s =
      some { pos with
             quantity := pos.quantity + q,
             avg_price := ((pos.quantity : ℚ) * pos.avg_price + q * p) /
               ((pos.quantity : ℚ) + q) } := by
  unfold VirtualAccount.buy
  rw [if_neg hcash, hpos]
  refine ⟨rfl, ?_⟩
  show lookupKey (dictInsert acc.positions s
    { pos with
      quantity := pos.quantity + q,
      avg_price := ((pos.quantity : ℚ) * pos.avg_price + q * p) /
        ((pos.quantity + q : ℕ) : ℚ) }) s = _
  rw [lookupKey_dictInsert_self]
  push_cast
  rfl

/-- Claim C8: a successful `buy` into an existing position sums the
quantities and merges the average price by the volume-weighted formula
`(old_qty*old_avg + qty*price) / (old_qty + qty)`; buying 10 shares at 100
then 10 at 120 gives quantity 20 at average 110. -/
theorem buy_weighted_average :
    (∀ (acc : VirtualAccount) (s : Sym) (pos : Position) (q : ℕ) (p c : ℚ)
        (ot : String), lookupKey acc.positions s = some pos →
        ¬acc.cash < q * p + c →
        (acc.buy s q p c ot).1 = true ∧
        lookupKey ((acc.buy s q p c ot).2).positions s =
          some { pos with
                 quantity := pos.quantity + q,
                 avg_price := ((pos.quantity : ℚ) * pos.avg_price + q * p) /
                   ((pos.quantity : ℚ) + q) }) ∧
    lookupKey (((((VirtualAccount.mk0 10000).buy "AAPL" 10 100 0 "MARKET").2).buy
        "AAPL" 10 120 0 "MARKET").2).positions "AAPL"
      = some { symbol := "AAPL", quantity := 20, avg_price := 110,
               current_price := 100 } := by
  constructor
  · exact buy_merge_position
  · norm_num [VirtualAccount.mk0, VirtualAccount.buy, dictInsert, lookupKey]

/-- Concrete instance of the general part of `buy_weighted_average`: merging
2 shares at 10 into 2 shares held at 20 gives 4 shares at average 15. -/
theorem buy_weighted_average_witness :
    lookupKey (((((VirtualAccount.mk0 1000).buy "AAPL" 2 20 0 "MARKET").2).buy
        "AAPL" 2 10 0 "MARKET").2).positions "AAPL"
      = some { symbol := "AAPL", quantity := 4,
               avg_price := ((2 : ℚ) * 20 + 2 * 10) / ((2 : ℚ) + 2),
               current_price := 20 } := by
  refine ((buy_weighted_average.1 _ "AAPL"
      { symbol := "AAPL", quantity := 2, avg_price := 20, current_price := 20 }
      2 10 0 "MARKET" ?_ ?_).2)
  · norm_num [VirtualAccount.mk0, VirtualAccount.buy, dictInsert, lookupKey]
  · norm_num [VirtualAccount.mk0, VirtualAccount.buy]

/-- Claim C10: a `buy` creating a new position seeds `current_price` with the
fill price, while a `buy` merging into an existing position leaves
`current_price` untouched. -/
theorem buy_current_price :
    (∀ (acc : VirtualAccount) (s : Sym) (q : ℕ) (p c : ℚ) (ot : String),
        lookupKey acc.positions s = none → ¬acc.cash < q * p + c →
        lookupKey ((acc.buy s q p c ot).2).positions s =
          some { symbol := s, quantity := q, avg_price := p, current_price := p }) ∧
    (∀ (acc : VirtualAccount) (s : Sym) (pos : Position) (q : ℕ) (p c : ℚ)
        (ot : String), lookupKey acc.positions s = some pos →
        ¬acc.cash < q * p + c →
        Option.map Position.current_price
            (lookupKey ((acc.buy s q p c ot).2).positions s)
          = some pos.current_price) := by
  constructor
  · intro acc s q p c ot hpos hcash
    unfold VirtualAccount.buy
    rw [if_neg hcash, hpos]
    show lookupKey (dictInsert acc.positions s
      { symbol := s, quantity := q, avg_price := p, current_price := p }) s = _
    rw [lookupKey_dictInsert_self]
  · intro acc s pos q p c ot hpos hcash
    rw [(buy_merge_position acc s pos q p c ot hpos hcash).2]
    rfl

/-- Concrete instance of `buy_current_price`: a fresh buy marks the position
at the fill price; a merging buy at 10 leaves the marked price at 20. -/
theorem buy_current_price_witness :
    lookupKey (((VirtualAccount.mk0 1000).buy "AAPL" 2 20 0 "MARKET").2).positions
        "AAPL"
      = some { symbol := "AAPL", quantity := 2, avg_price := 20, current_price := 20 } ∧
    Option.map Position.current_price
        (lookupKey (((((VirtualAccount.mk0 1000).buy "AAPL" 2 20 0 "MARKET").2).buy
          "AAPL" 2 10 0 "MARKET").2).positions "AAPL")
      = some 20 := by
  constructor
  · exact buy_current_price.1 _ "AAPL" 2 20 0 "MARKET"
      (by simp [VirtualAccount.mk0]) (by norm_num [VirtualAccount.mk0])
  · exact buy_current_price.2 _ "AAPL"
      { symbol := "AAPL", quantity := 2, avg_price := 20, current_price := 20 }
      2 10 0 "MARKET"
      (by norm_num [VirtualAccount.mk0, VirtualAccount.buy, dictInsert, lookupKey])
      (by norm_num [VirtualAccount.mk0, VirtualAccount.buy])

/-! ## Mark-to-market theorem -/

theorem lookupKey_update_prices (prices : Sym → Option ℚ)
    (m : List (Sym × Position)) (s : Sym) :
    lookupKey (m.map (fun sp =>
        match prices sp.1 with
        | some q => (sp.1, { sp.2 with current_price := q })
        | none => sp)) s
      = (lookupKey m s).map (fun pos =>
          match prices s with
          | some q => { pos with current_price := q }
          | none => pos) := by
  induction m with
  | nil => simp
  | cons p rest ih =>
      obtain ⟨k, v⟩ := p
      by_cases hk : k = s
      · subst hk
        cases hpk : prices k <;> simp [hpk]
      · cases hpk : prices k <;> simp [hk, hpk, ih]

theorem update_prices_keys (prices : Sym → Option ℚ) (m : List (Sym × Position)) :
    (m.map (fun sp =>
        match prices sp.1 with
        | some q => (sp.1, { sp.2 with current_price := q })
        | none => sp)).map Prod.fst = m.map Prod.fst := by
  induction m with
  | nil => rfl
  | cons p rest ih =>
      obtain ⟨k, v⟩ := p
      cases hpk : prices k <;> simp [hpk, ih]

/-- Claim C9: `update_prices` sets `current_price` to the mapped value on
every open position whose symbol is in the price map, leaves positions whose
symbol is absent entirely unchanged, preserves the key set, and modifies no
other account state. -/
theorem update_prices_spec :
    ∀ (acc : VirtualAccount) (prices : Sym → Option ℚ),
      (∀ (s : Sym) (pos : Position) (q : ℚ),
          lookupKey acc.positions s = some pos → prices s = some q →
          lookupKey (acc.update_prices prices).positions s =
            some { pos with current_price := q }) ∧
      (∀ (s : Sym) (pos : Position),
          lookupKey acc.positions s = some pos → prices s = none →
          lookupKey (acc.update_prices prices).positions s = some pos) ∧
      (acc.update_prices prices).positions.map Prod.fst =
        acc.positions.map Prod.fst ∧
      (acc.update_prices prices).cash = acc.cash ∧
      (acc.update_prices prices).initial_capital = acc.initial_capital ∧
      (acc.update_prices prices).trades = acc.trades ∧
      (acc.update_prices prices).next_trade_id = acc.next_trade_id := by
  intro acc prices
  refine ⟨?_, ?_, ?_, rfl, rfl, rfl, rfl⟩
  · intro s pos q hpos hq
    simp only [VirtualAccount.update_prices]
    rw [lookupKey_update_prices, hpos]
    simp [hq]
  · intro s pos hpos hq
    simp only [VirtualAccount.update_prices]
    rw [lookupKey_update_prices, hpos]
    simp [hq]
  · simp only [VirtualAccount.update_prices]
    exact update_prices_keys prices acc.positions

/-- Concrete instance of `update_prices_spec`: marking `{AAPL ↦ 42}` on an
account holding AAPL and MSFT updates AAPL's current price to 42 and leaves
MSFT untouched. -/
theorem update_prices_spec_witness :
    lookupKey ((((((VirtualAccount.mk0 100).buy "AAPL" 1 10 0 "MARKET").2).buy
          "MSFT" 1 20 0 "MARKET").2).update_prices
        (fun s => if s = "AAPL" then some 42 else none)).positions "AAPL"
      = some { symbol := "AAPL", quantity := 1, avg_price := 10, current_price := 42 } ∧
    lookupKey ((((((VirtualAccount.mk0 100).buy "AAPL" 1 10 0 "MARKET").2).buy
          "MSFT" 1 20 0 "MARKET").2).update_prices
        (fun s => if s = "AAPL" then some 42 else none)).positions "MSFT"
      = some { symbol := "MSFT", quantity := 1, avg_price := 20, current_price := 20 } := by
  constructor
  · exact (update_prices_spec _ _).1 "AAPL"
      { symbol := "AAPL", quantity := 1, avg_price := 10, current_price := 10 } 42
      (by norm_num [VirtualAccount.mk0, VirtualAccount.buy, dictInsert, lookupKey])
      (by norm_num)
  · exact (update_prices_spec _ _).2.1 "MSFT"
      { symbol := "MSFT", quantity := 1, avg_price := 20, current_price := 20 }
      (by
        norm_num [VirtualAccount.mk0, VirtualAccount.buy, dictInsert, lookupKey]
        decide)
      (by decide)

/-! ## Startup-reconciliation theorems -/

/-- The spec's `Σ(all commissions ever paid)` over a trade history. -/
def totalCommissionSpec (h : List DbTrade) : ℚ :=
  (h.map (fun t => t.commission)).sum

theorem foldl_restoreStep_eq (trades : List DbTrade) :
    ∀ (d : List (Sym × RestoreEntry)) (comm : ℚ),
      trades.foldl restoreStep (d, comm)
        = (trades.foldl restoreData d, comm + totalCommissionSpec trades) := by
  induction trades with
  | nil => intro d comm; simp [totalCommissionSpec]
  | cons t ts ih =>
      intro d comm
      rw [List.foldl_cons, List.foldl_cons]
      show ts.foldl restoreStep (restoreData d t, comm + t.commission) = _
      rw [ih]
      simp [totalCommissionSpec, add_assoc]

theorem restoreFold_eq (trades : List DbTrade) :
    restoreFold trades = (trades.foldl restoreData [], totalCommissionSpec trades) := by
  unfold restoreFold
  rw [foldl_restoreStep_eq]
  rw [zero_add]

theorem restoreData_keys_nodup (t : DbTrade) {d : List (Sym × RestoreEntry)}
    (h : (d.map Prod.fst).Nodup) : ((restoreData d t).map Prod.fst).Nodup := by
  unfold restoreData
  split_ifs with h1 h2
  · exact dictInsert_keys_nodup _ _ h
  · exact dictInsert_keys_nodup _ _ h
  · exact h

theorem foldl_restoreData_keys_nodup (trades : List DbTrade) :
    ∀ {d : List (Sym × RestoreEntry)}, (d.map Prod.fst).Nodup →
      ((trades.foldl restoreData d).map Prod.fst).Nodup := by
  induction trades with
  | nil => intro d h; exact h
  | cons t ts ih =>
      intro d h
      rw [List.foldl_cons]
      exact ih (restoreData_keys_nodup t h)

theorem restoreSurvivors_keys_nodup {d : List (Sym × RestoreEntry)}
    (h : (d.map Prod.fst).Nodup) :
    ((restoreSurvivors d).map Prod.fst).Nodup := by
  unfold restoreSurvivors
  exact ((List.filter_sublist d).map Prod.fst).nodup h

/-- Folding `dictInsert` over a batch of fresh, pairwise-distinct keys appends
the corresponding bindings in order. -/
theorem foldl_dictInsert_fresh {α β : Type} (g : Sym → α → β) :
    ∀ (S : List (Sym × α)) (ps : List (Sym × β)),
      (∀ p ∈ S, lookupKey ps p.1 = none) → (S.map Prod.fst).Nodup →
      S.foldl (fun m p => dictInsert m p.1 (g p.1 p.2)) ps
        = ps ++ S.map (fun p => (p.1, g p.1 p.2)) := by
  intro S
  induction S with
  | nil => intro ps _ _; simp
  | cons p S' ih =>
      intro ps hfresh hnodup
      rw [List.foldl_cons]
      have hins : dictInsert ps p.1 (g p.1 p.2) = ps ++ [(p.1, g p.1 p.2)] := by
        unfold dictInsert
        rw [if_neg (by simp [hfresh p (List.mem_cons_self p S')])]
      rw [hins]
      rw [ih (ps ++ [(p.1, g p.1 p.2)]) ?_ ?_]
      · rw [List.append_assoc]
        rfl
      · intro p' hp'
        rw [lookupKey_eq_none_iff]
        simp only [List.map_append, List.mem_append]
        rintro (hmem | hmem)
        · exact absurd hmem ((lookupKey_eq_none_iff ps p'.1).mp
            (hfresh p' (List.mem_cons_of_mem p hp')))
        · have : p'.1 = p.1 := by simpa using hmem
          rw [List.map_cons, List.nodup_cons] at hnodup
          exact hnodup.1 (this ▸ List.mem_map_of_mem Prod.fst hp')
      · rw [List.map_cons, List.nodup_cons] at hnodup
        exact hnodup.2

/-- Re-folding `dictInsert` over bindings that are all already present (each
exactly once) leaves the map unchanged. -/
theorem foldl_dictInsert_reinstall {α β : Type} (g : Sym → α → β) :
    ∀ (S : List (Sym × α)) (ps : List (Sym × β)),
      (∀ p ∈ S, (p.1, g p.1 p.2) ∈ ps ∧
        ∀ r ∈ ps, r.1 = p.1 → r = (p.1, g p.1 p.2)) →
      S.foldl (fun m p => dictInsert m p.1 (g p.1 p.2)) ps = ps := by
  intro S
  induction S with
  | nil => intro ps _; rfl
  | cons p S' ih =>
      intro ps h
      rw [List.foldl_cons]
      rw [dictInsert_eq_self (h p (List.mem_cons_self p S')).1
        (h p (List.mem_cons_self p S')).2]
      exact ih ps (fun p' hp' => h p' (List.mem_cons_of_mem p hp'))

/-- Claim C3, amended: the reconciliation processes the most recent (up to)
1000 trades of the history oldest-first — so for a history of at most 1000
trades, the full history — accumulating per-symbol signed quantity and
proportionally reduced cost basis via `restoreData`, dropping symbols whose
net quantity is not positive, installing the surviving positions, and
deriving cash as `initial_capital - Σ(remaining cost bases) - Σ(commissions
over the processed trades)`. -/
theorem restore_reconciliation (quotes : Sym → Option ℚ) (init : ℚ)
    (db : List DbTrade) (hlen : db.length ≤ 1000) :
    (restorePositions quotes init db (VirtualAccount.mk0 init)).cash
      = init
        - ((restoreSurvivors (db.foldl restoreData [])).map
            (fun p => p.2.total_cost)).sum
        - totalCommissionSpec db ∧
    (restorePositions quotes init db (VirtualAccount.mk0 init)).positions
      = (restoreSurvivors (db.foldl restoreData [])).map
          (fun p => (p.1, restorePosition quotes p.1 p.2)) := by
  have htr : get_all_trades db 1000 = db.reverse := by
    unfold get_all_trades
    exact List.take_of_length_le (by simpa using hlen)
  by_cases hdb : db = []
  · subst hdb
    simp [restorePositions, get_all_trades, restoreSurvivors, totalCommissionSpec,
      VirtualAccount.mk0]
  · unfold restorePositions
    rw [htr, if_neg (by simpa using hdb), List.reverse_reverse, restoreFold_eq]
    constructor
    · show init - (((restoreSurvivors (db.foldl restoreData [])).map
          (fun p => p.2.total_cost)).sum + totalCommissionSpec db) = _
      ring
    · show (restoreSurvivors (db.foldl restoreData [])).foldl
          (fun ps p => dictInsert ps p.1 (restorePosition quotes p.1 p.2)) [] = _
      rw [foldl_dictInsert_fresh (restorePosition quotes) _ [] (by simp)
        (restoreSurvivors_keys_nodup (foldl_restoreData_keys_nodup db (by simp)))]
      simp

/-- One BUY of 2 shares of `"A"` at $5 with $1 commission, for the
reconciliation witness. -/
def wTrade : DbTrade :=
  { symbol := "A", action := "BUY", quantity := 2, price := 5, commission := 1 }

/-- Concrete instance of `restore_reconciliation`: one BUY of 2 shares at $5
with $1 commission, replayed from a $100 account. -/
theorem restore_reconciliation_witness :
    (restorePositions (fun _ => none) 100 [wTrade] (VirtualAccount.mk0 100)).cash
      = 100
        - ((restoreSurvivors ([wTrade].foldl restoreData [])).map
            (fun p => p.2.total_cost)).sum
        - totalCommissionSpec [wTrade] :=
  (restore_reconciliation (fun _ => none) 100 _ (by norm_num)).1

/-- A trade used to exhibit the 1000-row cap of the reconciliation read:
1 share of `"A"` bought at price 0 with commission 1. -/
def cexTrade : DbTrade :=
  { symbol := "A", action := "BUY", quantity := 1, price := 0, commission := 1 }

theorem restoreData_replicate (n : ℕ) : ∀ q : ℤ,
    (List.replicate n cexTrade).foldl restoreData
        [("A", { qty := q, total_cost := 0 })]
      = [("A", { qty := q + n, total_cost := 0 })] := by
  induction n with
  | zero => intro q; simp
  | succ n ih =>
      intro q
      rw [List.replicate_succ, List.foldl_cons]
      have hstep : restoreData [("A", { qty := q, total_cost := 0 })] cexTrade
          = [("A", { qty := q + 1, total_cost := 0 })] := by
        norm_num [restoreData, dictInsert, lookupKey, cexTrade]
      rw [hstep, ih (q + 1)]
      have harith : q + 1 + (n : ℤ) = q + ((n + 1 : ℕ) : ℤ) := by push_cast; ring
      rw [harith]

theorem restoreData_replicate_full (n : ℕ) :
    (List.replicate (n + 1) cexTrade).foldl restoreData []
      = [("A", { qty := 1 + n, total_cost := 0 })] := by
  rw [List.replicate_succ, List.foldl_cons]
  have hstep : restoreData [] cexTrade = [("A", { qty := 1, total_cost := 0 })] := by
    norm_num [restoreData, dictInsert, lookupKey, cexTrade]
  rw [hstep]
  exact restoreData_replicate n 1

theorem totalCommission_replicate (n : ℕ) :
    totalCommissionSpec (List.replicate n cexTrade) = n := by
  unfold totalCommissionSpec
  rw [List.map_replicate]
  simp [cexTrade]

/-- Claim C3 fails on the code for histories longer than 1000 trades:
`_restore_positions` reads `get_all_trades(limit=1000)`, so only the most
recent 1000 trades are replayed.  With 1001 copies of a BUY of 1 share at
price 0 with commission 1 and `initial_capital = 0`, the code reconstructs
`cash = -1000` (1000 commissions), while the claimed full-history formula
`initial_capital - Σ(remaining cost bases) - Σ(all commissions ever paid)`
gives `-1001`. -/
theorem restore_reconciliation_counterexample :
    (restorePositions (fun _ => none) 0 (List.replicate 1001 cexTrade)
        (VirtualAccount.mk0 0)).cash = -1000 ∧
    (0 : ℚ)
        - ((restoreSurvivors ((List.replicate 1001 cexTrade).foldl
            restoreData [])).map (fun p => p.2.total_cost)).sum
        - totalCommissionSpec (List.replicate 1001 cexTrade)
      = -1001 := by
  constructor
  · have h1 : get_all_trades (List.replicate 1001 cexTrade) 1000
        = List.replicate 1000 cexTrade := by
      unfold get_all_trades
      rw [List.reverse_replicate, List.take_replicate]
      norm_num
    have h2 : (List.replicate 1000 cexTrade).foldl restoreData []
        = [("A", { qty := 1000, total_cost := 0 })] := by
      have h := restoreData_replicate_full 999
      norm_num at h
      exact h
    unfold restorePositions
    rw [h1, if_neg (by simp : ¬List.replicate 1000 cexTrade = []),
      List.reverse_replicate, restoreFold_eq, h2, totalCommission_replicate]
    show (0 : ℚ) - (((restoreSurvivors [("A", { qty := 1000, total_cost := 0 })]).map
        (fun p => p.2.total_cost)).sum + (1000 : ℕ)) = -1000
    norm_num [restoreSurvivors]
  · have h3 : (List.replicate 1001 cexTrade).foldl restoreData []
        = [("A", { qty := 1001, total_cost := 0 })] := by
      have h := restoreData_replicate_full 1000
      norm_num at h
      exact h
    rw [h3, totalCommission_replicate]
    norm_num [restoreSurvivors]

/-- Claim C4: the startup reconstruction is idempotent — applying
`_restore_positions` a second time, over the same trade history and the same
quote source, to the account it produced from a fresh account yields exactly
the same ledger state (same cash, same position set, all other fields
unchanged). -/
theorem restore_idempotent (quotes : Sym → Option ℚ) (init : ℚ)
    (db : List DbTrade) :
    restorePositions quotes init db
        (restorePositions quotes init db (VirtualAccount.mk0 init))
      = restorePositions quotes init db (VirtualAccount.mk0 init) := by
  by_cases h0 : get_all_trades db 1000 = []
  · have h1 : ∀ acc, restorePositions quotes init db acc = acc := by
      intro acc
      unfold restorePositions
      rw [if_pos h0]
    rw [h1, h1]
  · have hnodup : ((restoreSurvivors
        (restoreFold (get_all_trades db 1000).reverse).1).map Prod.fst).Nodup := by
      rw [restoreFold_eq]
      exact restoreSurvivors_keys_nodup (foldl_restoreData_keys_nodup _ (by simp))
    have hne : ∀ acc, restorePositions quotes init db acc
        = { acc with
            cash := init - (((restoreSurvivors
                (restoreFold (get_all_trades db 1000).reverse).1).map
                  (fun p => p.2.total_cost)).sum
              + (restoreFold (get_all_trades db 1000).reverse).2),
            positions := (restoreSurvivors
                (restoreFold (get_all_trades db 1000).reverse).1).foldl
              (fun ps p => dictInsert ps p.1 (restorePosition quotes p.1 p.2))
              acc.positions } := by
      intro acc
      unfold restorePositions
      rw [if_neg h0]
    have hinstall : (restoreSurvivors
        (restoreFold (get_all_trades db 1000).reverse).1).foldl
          (fun ps p => dictInsert ps p.1 (restorePosition quotes p.1 p.2)) []
        = (restoreSurvivors (restoreFold (get_all_trades db 1000).reverse).1).map
            (fun p => (p.1, restorePosition quotes p.1 p.2)) := by
      rw [foldl_dictInsert_fresh (restorePosition quotes) _ [] (by simp) hnodup]
      simp
    have hre : (restoreSurvivors
        (restoreFold (get_all_trades db 1000).reverse).1).foldl
          (fun ps p => dictInsert ps p.1 (restorePosition quotes p.1 p.2))
          ((restoreSurvivors (restoreFold (get_all_trades db 1000).reverse).1).map
            (fun p => (p.1, restorePosition quotes p.1 p.2)))
        = (restoreSurvivors (restoreFold (get_all_trades db 1000).reverse).1).map
            (fun p => (p.1, restorePosition quotes p.1 p.2)) := by
      refine foldl_dictInsert_reinstall (restorePosition quotes) _ _ ?_
      intro p hp
      refine ⟨List.mem_map_of_mem _ hp, ?_⟩
      intro r hr hr1
      obtain ⟨p', hp', rfl⟩ := List.mem_map.mp hr
      have : p' = p := List.inj_on_of_nodup_map hnodup hp' hp hr1
      rw [this]
    rw [hne (VirtualAccount.mk0 init), hne]
    congr 1
    show (restoreSurvivors (restoreFold (get_all_trades db 1000).reverse).1).foldl
        (fun ps p => dictInsert ps p.1 (restorePosition quotes p.1 p.2))
        ((restoreSurvivors (restoreFold (get_all_trades db 1000).reverse).1).foldl
          (fun ps p => dictInsert ps p.1 (restorePosition quotes p.1 p.2)) [])
      = (restoreSurvivors (restoreFold (get_all_trades db 1000).reverse).1).foldl
          (fun ps p => dictInsert ps p.1 (restorePosition quotes p.1 p.2)) []
    rw [hinstall]
    exact hre

end MockTrade
